import Mathlib

/-!
Verification of the telemetry decoding and windowed-aggregation engine of the
sensor dashboard (`src/mqttService.js`).  The JavaScript decoding functions are
embedded shallowly: byte buffers become `List Nat` (each byte taken mod 256, as
a `Uint8Array` store truncates), `DataView` reads become bounds-checked
`Option` reads (a read past the end throws a `RangeError`, which the decoder's
`try`/`catch` converts into a `null` result, i.e. `none`), and JavaScript
numbers become `ℚ` (exact rational arithmetic; `NaN`/`Infinity` are outside the
model and are represented by `none` where the code can produce them).
-/

set_option maxRecDepth 8000

namespace Dashboard

/-- A raw byte buffer, as produced by `atob` + `Uint8Array`. -/
abbrev Bytes := List Nat

/-- The byte stored at index `i` (a `Uint8Array` truncates mod 256; out of
range indexing never happens on success paths, `0` is a dummy). -/
def byteAt (buf : Bytes) (i : Nat) : Nat := buf.getD i 0 % 256

/-- `DataView.getUint8(off)`: fails (RangeError) when out of bounds. -/
def getUint8 (buf : Bytes) (off : Nat) : Option Nat :=
  if off + 1 ≤ buf.length then some (byteAt buf off) else none

/-- `DataView.getUint16(off, true)`: little-endian 16-bit unsigned read. -/
def getUint16LE (buf : Bytes) (off : Nat) : Option Nat :=
  if off + 2 ≤ buf.length then
    some (byteAt buf off + 256 * byteAt buf (off + 1))
  else none

/-- `DataView.getUint32(off, true)`: little-endian 32-bit unsigned read. -/
def getUint32LE (buf : Bytes) (off : Nat) : Option Nat :=
  if off + 4 ≤ buf.length then
    some (byteAt buf off + 256 * byteAt buf (off + 1) +
          65536 * byteAt buf (off + 2) + 16777216 * byteAt buf (off + 3))
  else none

/-- `DataView.getInt16(off, true)`: little-endian 16-bit signed read. -/
def getInt16LE (buf : Bytes) (off : Nat) : Option Int :=
  (getUint16LE buf off).map fun u =>
    if u < 32768 then (u : Int) else (u : Int) - 65536

/-- Result record of `decodeTempHumData`: `{ timestamp, temperature, humidity }`.
The `timestamp` field is returned exactly as read (seconds, per the source
comment); the code never scales it. -/
structure TempHumDecoded where
  timestamp : Nat
  temperature : ℚ
  humidity : ℚ
deriving DecidableEq, Repr

/-- `decodeTempHumData` (src/mqttService.js, lines 156-182), on the byte buffer
obtained from the Base64 payload: read `timestamp` (u32 LE), `tempRaw`
(i16 LE at offset 4), `humRaw` (u16 LE at offset 6); divide the raw readings
by 100.  Any out-of-bounds read throws, is caught, and yields `null`. -/
def decodeTempHumBytes (buf : Bytes) : Option TempHumDecoded := do
  let timestamp ← getUint32LE buf 0
  let tempRaw ← getInt16LE buf 4
  let humRaw ← getUint16LE buf 6
  some { timestamp := timestamp
         temperature := (tempRaw : ℚ) / 100
         humidity := (humRaw : ℚ) / 100 }

/-- One decoded piezo sample `{ timestamp, value }` (`value` is the voltage). -/
structure PiezoSample where
  timestamp : Nat
  value : ℚ
deriving DecidableEq, Repr

/-- Result of `decodePiezoData`: the JS function returns
`{ channels, baseTimestamp, sampleIntervalMs }`; we additionally keep the
`invalidCount` local counter it maintains (the count of 0x8000 sentinels),
which the function logs. -/
structure PiezoDecoded where
  channels : List (List PiezoSample)
  baseTimestamp : Nat
  sampleIntervalMs : Nat
  invalidCount : Nat
deriving DecidableEq, Repr

/-- The inner loop `for (let s = 0; s < numSamples; s++)` of `decodePiezoData`:
`s` is the current sample index, the second argument the number of iterations
left, `off` the running byte offset (`offset += 2` per iteration).  Each
iteration reads a signed int16; the sentinel `-32768` is dropped and counted,
any other value becomes a sample with `timestamp = baseTs*1000 + s*intMs` and
`value = raw/100`.  Returns the collected samples, the sentinel count, and the
final offset. -/
def piezoSampleLoop (buf : Bytes) (baseTs intMs : Nat) :
    Nat → Nat → Nat → Option (List PiezoSample × Nat × Nat)
  | _, 0, off => some ([], 0, off)
  | s, r + 1, off => do
    let raw ← getInt16LE buf off
    let (tl, inv, off') ← piezoSampleLoop buf baseTs intMs (s + 1) r (off + 2)
    if raw = -32768 then
      some (tl, inv + 1, off')
    else
      some ({ timestamp := baseTs * 1000 + s * intMs, value := (raw : ℚ) / 100 } :: tl,
            inv, off')

/-- The outer loop `for (let ch = 0; ch < numChannels; ch++)` of
`decodePiezoData`: the first argument is the number of channels left, `off`
the running byte offset.  Channels are consumed one after the other
(channel-outer, sample-inner). -/
def piezoChannelLoop (buf : Bytes) (baseTs intMs numSamples : Nat) :
    Nat → Nat → Option (List (List PiezoSample) × Nat × Nat)
  | 0, off => some ([], 0, off)
  | c + 1, off => do
    let (samps, inv₁, off') ← piezoSampleLoop buf baseTs intMs 0 numSamples off
    let (rest, inv₂, off'') ← piezoChannelLoop buf baseTs intMs numSamples c off'
    some (samps :: rest, inv₁ + inv₂, off'')

/-- `decodePiezoData` (src/mqttService.js, lines 86-146), on the byte buffer
obtained from the Base64 payload: read the 8-byte header
(`baseTimestamp` u32, `sampleIntervalMs` u16, `numSamples` u8,
`numChannels` u8, all little-endian), then consume
`numChannels × numSamples` int16 values starting at offset 8 in
channel-major order.  Any out-of-bounds read throws, is caught, and the
whole call yields `null`. -/
def decodePiezoBytes (buf : Bytes) : Option PiezoDecoded := do
  let baseTimestamp ← getUint32LE buf 0
  let sampleIntervalMs ← getUint16LE buf 4
  let numSamples ← getUint8 buf 6
  let numChannels ← getUint8 buf 7
  let (channels, invalidCount, _) ←
    piezoChannelLoop buf baseTimestamp sampleIntervalMs numSamples numChannels 8
  some { channels := channels
         baseTimestamp := baseTimestamp
         sampleIntervalMs := sampleIntervalMs
         invalidCount := invalidCount }

/-- The value section of a piezo record addressed directly: the int16 read
for channel `ch`, sample `s` sits at byte offset `8 + 2*(ch*numSamples + s)`
(channel-major layout). -/
def piezoRead (buf : Bytes) (numSamples ch s : Nat) : Option Int :=
  getInt16LE buf (8 + 2 * (ch * numSamples + s))

/-- Specification-level form of the inner sample loop: sample `s` of channel
`ch` is read at the closed-form offset `8 + 2*(ch*numSamples + s)` instead of
a running offset.  Arguments: next sample index `s`, samples left `r`. -/
def piezoChannelSpec (buf : Bytes) (baseTs intMs numSamples ch : Nat) :
    Nat → Nat → Option (List PiezoSample × Nat)
  | _, 0 => some ([], 0)
  | s, r + 1 => do
    let raw ← piezoRead buf numSamples ch s
    let (tl, inv) ← piezoChannelSpec buf baseTs intMs numSamples ch (s + 1) r
    if raw = -32768 then
      some (tl, inv + 1)
    else
      some ({ timestamp := baseTs * 1000 + s * intMs, value := (raw : ℚ) / 100 } :: tl, inv)

/-- Specification-level channel iteration: channel index `ch` explicit,
`c` channels left. -/
def piezoChannelsSpec (buf : Bytes) (baseTs intMs numSamples : Nat) :
    Nat → Nat → Option (List (List PiezoSample) × Nat)
  | _, 0 => some ([], 0)
  | ch, c + 1 => do
    let (samps, inv₁) ← piezoChannelSpec buf baseTs intMs numSamples ch 0 numSamples
    let (rest, inv₂) ← piezoChannelsSpec buf baseTs intMs numSamples (ch + 1) c
    some (samps :: rest, inv₁ + inv₂)

/-- The piezo decoder as the spec phrases it: same header, but every value
position addressed by the closed-form channel-major offset. -/
def decodePiezoSpec (buf : Bytes) : Option PiezoDecoded := do
  let baseTimestamp ← getUint32LE buf 0
  let sampleIntervalMs ← getUint16LE buf 4
  let numSamples ← getUint8 buf 6
  let numChannels ← getUint8 buf 7
  let (channels, invalidCount) ←
    piezoChannelsSpec buf baseTimestamp sampleIntervalMs numSamples 0 numChannels
  some { channels := channels
         baseTimestamp := baseTimestamp
         sampleIntervalMs := sampleIntervalMs
         invalidCount := invalidCount }

/-! ### Base64 wrapping of the two decoders -/

/-- A `base64_sensordata` string as the decoders receive it: either it
`atob`-decodes to a byte buffer, or `atob` throws (invalid Base64). -/
inductive B64Data where
  | valid (bytes : Bytes)
  | invalid
deriving DecidableEq, Repr

/-- `decodePiezoData` on its actual Base64-string input: an `atob` failure is
caught by the surrounding `try`/`catch` and yields `null`. -/
def decodePiezoData : B64Data → Option PiezoDecoded
  | .invalid => none
  | .valid b => decodePiezoBytes b

/-- `decodeTempHumData` on its actual Base64-string input. -/
def decodeTempHumData : B64Data → Option TempHumDecoded
  | .invalid => none
  | .valid b => decodeTempHumBytes b

/-! ### Channel windows (ChannelWindowStore) -/

/-- One element of a channel's state array: `{ time, value }`. -/
structure Point where
  time : ℚ
  value : ℚ
deriving DecidableEq, Repr

/-- `WINDOW_MS = 20000` (src/mqttService.js line 196). -/
def WINDOW_MS : ℚ := 20000

/-- The append-and-evict step both message paths use (lines 295 and 337):
`[...oldArr, ...newPoints].filter(d => now - d.time <= WINDOW_MS)`. -/
def appendWindow (oldArr newPoints : List Point) (now : ℚ) : List Point :=
  (oldArr ++ newPoints).filter fun d => decide (now - d.time ≤ WINDOW_MS)

/-! ### Clock-offset estimator -/

/-- `OFFSET_SAMPLE_SIZE = 20` (line 197). -/
def OFFSET_SAMPLE_SIZE : Nat := 20

/-- The estimator state: `offsetSamples.current` and the cached mean
`offsetRef.current`. -/
structure OffsetState where
  samples : List ℚ
  offset : ℚ
deriving DecidableEq, Repr

/-- Initial state: `useRef(0)` and `useRef([])` (lines 71-72). -/
def initOffsetState : OffsetState := { samples := [], offset := 0 }

/-- One observation (lines 311-317): push the sample, `shift()` the oldest
when the length exceeds `OFFSET_SAMPLE_SIZE`, recompute the running average
with `reduce((a, b) => a + b, 0) / length` and cache it in `offsetRef`. -/
def observeOffset (st : OffsetState) (offsetSample : ℚ) : OffsetState :=
  let pushed := st.samples ++ [offsetSample]
  let samples := if OFFSET_SAMPLE_SIZE < pushed.length then pushed.tail else pushed
  { samples := samples
    offset := (samples.foldl (· + ·) 0) / samples.length }

/-- A sequence of observations, oldest first. -/
def observeList (st : OffsetState) (l : List ℚ) : OffsetState :=
  l.foldl observeOffset st

/-! ### Legacy (original-mode) readings -/

/-- A legacy reading object `{ts, v}` as far as `handleMessage` inspects it:
`ts` is `some t` exactly when `typeof obj.ts === 'number'` and the (finite)
value is `t`; `v` is `some q` when `Number(obj.v)` is the (finite) number `q`
and `none` when that conversion gives `NaN` (missing field, non-numeric
value, ...). -/
structure ReadingObj where
  ts : Option ℚ
  v : Option ℚ
deriving DecidableEq, Repr

/-- A `SensorN` slot of a legacy message: absent (or otherwise falsy), a
single reading object, or an array of reading objects. -/
inductive SensorField where
  | absent
  | one (r : ReadingObj)
  | many (l : List ReadingObj)
deriving DecidableEq, Repr

/-- `Array.isArray(raw) ? raw : (raw ? [raw] : [])` (line 332). -/
def SensorField.toArr : SensorField → List ReadingObj
  | .absent => []
  | .one r => [r]
  | .many l => l

/-- `Array.isArray(d) ? d[0] : d` (line 309): the reading inspected by the
offset-sampling loop (an empty array gives `undefined`, which the
`sample &&` guard rejects). -/
def SensorField.headReading : SensorField → Option ReadingObj
  | .absent => none
  | .one r => some r
  | .many l => l.head?

/-- `Number(x) || 0`: a falsy conversion result (`NaN` or `0`) becomes `0`. -/
def numOr0 : Option ℚ → ℚ
  | some q => if q = 0 then 0 else q
  | none => 0

/-- One legacy point (lines 333-336):
`time = typeof obj.ts === 'number' ? obj.ts - offset : now`,
`value = Number(obj.v) || 0`. -/
def mkLegacyPoint (now offset : ℚ) (obj : ReadingObj) : Point :=
  { time := match obj.ts with
            | some t => t - offset
            | none => now
    value := numOr0 obj.v }

/-! ### Envelope and dispatcher -/

/-- A parsed JSON message, restricted to the fields `handleMessage` reads.
`base64_sensordata = some d` models a present, truthy `base64_sensordata`
field; `temperature`/`humidity` are the `Number(...)` conversions of the
`Temperature`/`Humidity` fields (`none` = `NaN`). -/
structure Envelope where
  base64_sensordata : Option B64Data
  sensor1 : SensorField
  sensor2 : SensorField
  sensor3 : SensorField
  sensor4 : SensorField
  temperature : Option ℚ
  humidity : Option ℚ
deriving DecidableEq, Repr

/-- The slots `data.Sensor1 .. data.Sensor4` in loop order. -/
def Envelope.sensors (data : Envelope) : List SensorField :=
  [data.sensor1, data.sensor2, data.sensor3, data.sensor4]

/-- `TOPIC_MAP = { 'iot/piezo': ['A1', 'B1', 'C1', 'A2'] }` (lines 199-201);
`topic in TOPIC_MAP` is `(TOPIC_MAP topic).isSome`. -/
def TOPIC_MAP (topic : String) : Option (List String) :=
  if topic = "iot/piezo" then some ["A1", "B1", "C1", "A2"] else none

/-- The 16 channel keys of `SENSOR_KEYS` (lines 44-53). -/
def SENSOR_KEYS : List String :=
  ["A1", "B1", "C1", "A2", "B2", "C2", "D1", "E1",
   "A3", "B3", "C3", "A4", "B4", "C4", "D2", "E2"]

/-- `decoderMode` toggle values. -/
inductive DecoderMode where
  | original
  | base64
deriving DecidableEq, Repr

/-- The mutable dashboard state the dispatcher touches: the per-key channel
windows (`piezo`, every key initially `[]`), the first temperature/humidity
readings, and the clock-offset estimator state. -/
structure DashState where
  piezo : String → List Point
  temp1 : ℚ
  hum1 : ℚ
  offsetState : OffsetState

/-- Initial dashboard state: `makeEmptyState()` and `useState(0)`. -/
def initDashState : DashState :=
  { piezo := fun _ => [], temp1 := 0, hum1 := 0, offsetState := initOffsetState }

/-- Binary-mode window update (lines 282-301): the loop
`for (i = 0; i < Math.min(mapping.length, decoded.channels.length); i++)`
is the fold over `mapping.zip decoded.channels`; each step writes
`[...prev[key], ...newPoints].filter(...)` under the `i`-th mapped key
(`oldArr` is read from `prev`; the write goes to the copied `updated`). -/
def updatePiezoBinary (prev : String → List Point) (mapping : List String)
    (chans : List (List PiezoSample)) (now : ℚ) : String → List Point :=
  (mapping.zip chans).foldl
    (fun updated kc =>
      Function.update updated kc.1
        (appendWindow (prev kc.1)
          (kc.2.map fun p => { time := (p.timestamp : ℚ), value := p.value }) now))
    prev

/-- The offset-sampling scan (lines 307-320): the first slot whose inspected
reading has a numeric `ts` supplies the offset sample, then the loop breaks. -/
def firstNumericTs (sensors : List SensorField) : Option ℚ :=
  sensors.findSome? fun f => f.headReading.bind ReadingObj.ts

/-- Legacy-mode window update (lines 322-342): the loop over
`i < mapping.length` reading `data[Sensor(i+1)]` is the fold over
`mapping.zip sensors` (both have length 4 in every call). -/
def updatePiezoLegacy (prev : String → List Point) (mapping : List String)
    (sensors : List SensorField) (offset now : ℚ) : String → List Point :=
  (mapping.zip sensors).foldl
    (fun updated ks =>
      Function.update updated ks.1
        (appendWindow (prev ks.1) (ks.2.toArr.map (mkLegacyPoint now offset)) now))
    prev

/-- The legacy (original-mode) piezo branch of `handleMessage`
(lines 305-342): feed the first numeric `ts` into the offset estimator, then
update the four mapped windows with points stamped using the refreshed
offset. -/
def legacyPiezoStep (st : DashState) (mapping : List String) (data : Envelope)
    (browserNow now : ℚ) : DashState :=
  let ost := match firstNumericTs data.sensors with
             | some t => observeOffset st.offsetState (t - browserNow)
             | none => st.offsetState
  { st with offsetState := ost
            piezo := updatePiezoLegacy st.piezo mapping data.sensors ost.offset now }

/-- `handleMessage` (lines 242-370), restricted to the state in `DashState`.
`payload = none` models a raw payload `JSON.parse` rejects (the surrounding
`try`/`catch` then drops the message).  `browserNow` is the `Date.now()`
taken on entry (line 243) and used for offset sampling; `now` is the
`Date.now()` taken inside the state updater (lines 284/326) and used for
window eviction. -/
def handleMessage (mode : DecoderMode) (st : DashState) (topic : String)
    (payload : Option Envelope) (browserNow now : ℚ) : DashState :=
  match TOPIC_MAP topic with
  | some mapping =>
    match payload with
    | none => st
    | some data =>
      match mode, data.base64_sensordata with
      | .base64, some b64 =>
        match decodePiezoData b64 with
        | some decoded =>
          { st with piezo := updatePiezoBinary st.piezo mapping decoded.channels now }
        | none => st
      | _, _ => legacyPiezoStep st mapping data browserNow now
  | none =>
    if topic = "iot/temp" then
      match payload with
      | none => st
      | some data =>
        match mode, data.base64_sensordata with
        | .base64, some b64 =>
          match decodeTempHumData b64 with
          | some d => { st with temp1 := d.temperature, hum1 := d.humidity }
          | none => st
        | _, _ =>
          { st with temp1 := numOr0 data.temperature, hum1 := numOr0 data.humidity }
    else st

/-- The example record bytes `59 9A 46 67 29 09 85 1A` from the spec (§8) and
from `docs/DATA_SCHEME.md`. -/
def tempHumExampleBytes : Bytes := [0x59, 0x9A, 0x46, 0x67, 0x29, 0x09, 0x85, 0x1A]

/-- The sample sequence a decoded piezo channel should hold, position by
position: for each sample index `s < numSamples`, the int16 at offset
`8 + 2*(ch*numSamples + s)`; a sentinel (−32768) position is absent, any
other raw value contributes exactly one sample with `value = raw/100` and
`timestamp = baseTs*1000 + s*intMs`. -/
def channelSamplesAt (buf : Bytes) (baseTs intMs numSamples ch : Nat) :
    List PiezoSample :=
  (List.range numSamples).filterMap fun s =>
    (piezoRead buf numSamples ch s).bind fun raw =>
      if raw = -32768 then none
      else some { timestamp := baseTs * 1000 + s * intMs, value := (raw : ℚ) / 100 }

/-- The number of sentinel (−32768) positions of channel `ch`. -/
def channelInvalidAt (buf : Bytes) (numSamples ch : Nat) : Nat :=
  ((List.range numSamples).filter fun s =>
    decide (piezoRead buf numSamples ch s = some (-32768))).length

/-! ## Helper lemmas -/

lemma bind_of_const_none {α β : Type} (x : Option α) :
    (x.bind fun _ => (none : Option β)) = none := by
  cases x <;> rfl

/-- On any buffer of at least 8 bytes, `decodeTempHumData` succeeds and
returns the three little-endian fields read at offsets 0, 4, 6, with the
temperature and humidity raw values divided by 100 and the timestamp field
returned unscaled. -/
lemma decodeTempHumBytes_eq (buf : Bytes) (h : 8 ≤ buf.length) :
    decodeTempHumBytes buf =
      some { timestamp := byteAt buf 0 + 256 * byteAt buf 1 +
                          65536 * byteAt buf 2 + 16777216 * byteAt buf 3
             temperature := ((if byteAt buf 4 + 256 * byteAt buf 5 < 32768 then
                               ((byteAt buf 4 + 256 * byteAt buf 5 : Nat) : Int)
                             else ((byteAt buf 4 + 256 * byteAt buf 5 : Nat) : Int) - 65536) : ℚ) / 100
             humidity := ((byteAt buf 6 + 256 * byteAt buf 7 : Nat) : ℚ) / 100 } := by
  have h4 : 0 + 4 ≤ buf.length := by omega
  have h6 : 4 + 2 ≤ buf.length := by omega
  have h8 : 6 + 2 ≤ buf.length := by omega
  simp [decodeTempHumBytes, getUint32LE, getInt16LE, getUint16LE, h4, h6, h8]
  norm_cast

/-- `decodeTempHumData` on a buffer shorter than 8 bytes fails: the read of
the humidity field at offset 6 is out of bounds, the `DataView` throws, and
the `catch` turns the call into `null`. -/
lemma decodeTempHumBytes_short (buf : Bytes) (h : buf.length < 8) :
    decodeTempHumBytes buf = none := by
  have h8 : ¬ (6 + 2 ≤ buf.length) := by omega
  simp [decodeTempHumBytes, getUint16LE, getInt16LE, h8, bind_of_const_none]

lemma foldl_update_not_written {α β γ : Type} [DecidableEq α]
    (l : List (α × γ)) (g : α × γ → β) (prev : α → β) (k : α)
    (hk : k ∉ l.map Prod.fst) :
    (l.foldl (fun u kc => Function.update u kc.1 (g kc)) prev) k = prev k := by
  induction l generalizing prev with
  | nil => rfl
  | cons kc₀ rest ih =>
    simp only [List.map_cons, List.mem_cons, not_or] at hk
    simp only [List.foldl_cons]
    rw [ih _ hk.2]
    exact Function.update_noteq (fun h => hk.1 h) _ _

lemma foldl_update_written {α β γ : Type} [DecidableEq α]
    (l : List (α × γ)) (g : α × γ → β) (prev : α → β) (k : α)
    (hk : k ∈ l.map Prod.fst) :
    ∃ kc, kc ∈ l ∧ kc.1 = k ∧
      (l.foldl (fun u kc => Function.update u kc.1 (g kc)) prev) k = g kc := by
  induction l generalizing prev with
  | nil => simp at hk
  | cons kc₀ rest ih =>
    by_cases hr : k ∈ rest.map Prod.fst
    · obtain ⟨kc, hmem, heq, hval⟩ := ih (Function.update prev kc₀.1 (g kc₀)) hr
      exact ⟨kc, List.mem_cons_of_mem _ hmem, heq, hval⟩
    · have hk0 : kc₀.1 = k := by
        simp only [List.map_cons, List.mem_cons] at hk
        tauto
      refine ⟨kc₀, List.mem_cons_self _ _, hk0, ?_⟩
      simp only [List.foldl_cons]
      rw [foldl_update_not_written _ _ _ _ hr, ← hk0, Function.update_same]

lemma foldl_update_get {α β γ : Type} [DecidableEq α]
    (l : List (α × γ)) (g : α × γ → β) (prev : α → β)
    (hnd : (l.map Prod.fst).Nodup) (i : Nat) (hi : i < l.length) :
    (l.foldl (fun u kc => Function.update u kc.1 (g kc)) prev) (l.get ⟨i, hi⟩).1 =
      g (l.get ⟨i, hi⟩) := by
  induction l generalizing prev i with
  | nil => simp at hi
  | cons kc₀ rest ih =>
    simp only [List.map_cons, List.nodup_cons] at hnd
    cases i with
    | zero =>
      simp only [List.foldl_cons, List.get]
      rw [foldl_update_not_written _ _ _ _ hnd.1, Function.update_same]
    | succ j =>
      simp only [List.foldl_cons, List.get]
      exact ih _ hnd.2 j (by simpa using hi)

/-- C1, counterexample: the example bytes decode to temperature 23.45 and
humidity 67.89, but the returned timestamp is the raw u32 field 1732680281
(the bytes `59 9A 46 67` hold 1732680281, not 1732012345): it is neither the
field times 1000 nor the claimed 1732012345000 — `decodeTempHumData` never
scales the timestamp. -/
theorem c1_counterexample :
    decodeTempHumBytes tempHumExampleBytes =
      some { timestamp := 1732680281, temperature := 23.45, humidity := 67.89 } ∧
    getUint32LE tempHumExampleBytes 0 = some 1732680281 ∧
    (decodeTempHumBytes tempHumExampleBytes).map TempHumDecoded.timestamp ≠
      some (1732680281 * 1000) ∧
    (decodeTempHumBytes tempHumExampleBytes).map TempHumDecoded.timestamp ≠
      some 1732012345000 := by
  have h : decodeTempHumBytes tempHumExampleBytes =
      some { timestamp := 1732680281, temperature := 23.45, humidity := 67.89 } := by
    norm_num [tempHumExampleBytes, decodeTempHumBytes, getUint32LE, getUint16LE,
              getInt16LE, byteAt]
  refine ⟨h, by norm_num [tempHumExampleBytes, getUint32LE, byteAt], ?_, ?_⟩ <;>
    (rw [h]; norm_num)

/-- C1 (amended): for every well-formed 8-byte temp/hum record, decoding reads
timestamp (u32), temperature_raw (i16), humidity_raw (u16) little-endian at
offsets 0, 4, 6 and returns temperature = temperature_raw/100,
humidity = humidity_raw/100, and the raw timestamp field unscaled (seconds,
not milliseconds); in particular the bytes `59 9A 46 67 29 09 85 1A` decode
to temperature 23.45, humidity 67.89, timestamp 1732680281. -/
lemma tempHum_example_eval :
    decodeTempHumBytes tempHumExampleBytes =
      some { timestamp := 1732680281, temperature := 23.45, humidity := 67.89 } := by
  norm_num [tempHumExampleBytes, decodeTempHumBytes, getUint32LE, getUint16LE,
            getInt16LE, byteAt]

theorem c1_tempHumDecode :
    (∀ buf : Bytes, buf.length = 8 →
      decodeTempHumBytes buf =
        some { timestamp := byteAt buf 0 + 256 * byteAt buf 1 +
                            65536 * byteAt buf 2 + 16777216 * byteAt buf 3
               temperature := ((if byteAt buf 4 + 256 * byteAt buf 5 < 32768 then
                                 ((byteAt buf 4 + 256 * byteAt buf 5 : Nat) : Int)
                               else ((byteAt buf 4 + 256 * byteAt buf 5 : Nat) : Int) - 65536) : ℚ) / 100
               humidity := ((byteAt buf 6 + 256 * byteAt buf 7 : Nat) : ℚ) / 100 }) ∧
    decodeTempHumBytes tempHumExampleBytes =
      some { timestamp := 1732680281, temperature := 23.45, humidity := 67.89 } :=
  ⟨fun buf h => decodeTempHumBytes_eq buf (by omega), tempHum_example_eval⟩

/-- Witness for C1: a concrete 8-byte record (timestamp 2, raw temperature
500, raw humidity 1500) decodes to temperature 5 and humidity 15. -/
theorem c1_tempHumDecode_witness :
    decodeTempHumBytes [2, 0, 0, 0, 244, 1, 220, 5] =
      some { timestamp := 2, temperature := 5, humidity := 15 } := by
  have h := c1_tempHumDecode.1 [2, 0, 0, 0, 244, 1, 220, 5] rfl
  rw [h]
  norm_num [getUint32LE, getUint16LE, getInt16LE, byteAt]

lemma map_fst_zip_eq_take {α γ : Type} :
    ∀ (l : List α) (l' : List γ), (l.zip l').map Prod.fst = l.take l'.length
  | [], _ => by simp
  | _ :: _, [] => by simp
  | a :: l, b :: l' => by
    simp only [List.zip_cons_cons, List.map_cons, List.length_cons, List.take_succ_cons]
    rw [map_fst_zip_eq_take l l']

lemma mem_of_mem_map_fst_zip {α γ : Type} {l : List α} {l' : List γ} {k : α}
    (h : k ∈ (l.zip l').map Prod.fst) : k ∈ l := by
  rw [map_fst_zip_eq_take] at h
  exact (List.take_sublist _ _).mem h

/-- C5: after every append, the stored sequence of the appended channel holds
exactly the old and new points within `WINDOW_MS = 20000` of the local time
taken during the append; consequently, in both the binary and the legacy
message path, every element stored under an appended key satisfies
`now - time ≤ WINDOW_MS`, and every older element (pre-existing or new) has
been removed. -/
theorem c5_window_invariant :
    WINDOW_MS = 20000 ∧
    (∀ (oldArr newPoints : List Point) (now : ℚ) (p : Point),
      p ∈ appendWindow oldArr newPoints now ↔
        p ∈ oldArr ++ newPoints ∧ now - p.time ≤ WINDOW_MS) ∧
    (∀ (prev : String → List Point) (mapping : List String)
        (chans : List (List PiezoSample)) (now : ℚ) (k : String),
      k ∈ (mapping.zip chans).map Prod.fst →
      ∀ p ∈ updatePiezoBinary prev mapping chans now k, now - p.time ≤ WINDOW_MS) ∧
    (∀ (prev : String → List Point) (mapping : List String)
        (sensors : List SensorField) (offset now : ℚ) (k : String),
      k ∈ (mapping.zip sensors).map Prod.fst →
      ∀ p ∈ updatePiezoLegacy prev mapping sensors offset now k,
        now - p.time ≤ WINDOW_MS) := by
  have hcore : ∀ (oldArr newPoints : List Point) (now : ℚ) (p : Point),
      p ∈ appendWindow oldArr newPoints now ↔
        p ∈ oldArr ++ newPoints ∧ now - p.time ≤ WINDOW_MS := by
    intro oldArr newPoints now p
    simp [appendWindow, List.mem_filter]
    tauto
  refine ⟨rfl, hcore, ?_, ?_⟩
  · intro prev mapping chans now k hk p hp
    simp only [updatePiezoBinary] at hp
    obtain ⟨kc, -, -, hval⟩ := foldl_update_written (mapping.zip chans)
      (fun kc => appendWindow (prev kc.1)
        (kc.2.map fun p => { time := (p.timestamp : ℚ), value := p.value }) now)
      prev k hk
    rw [hval] at hp
    exact ((hcore _ _ _ _).mp hp).2
  · intro prev mapping sensors offset now k hk p hp
    simp only [updatePiezoLegacy] at hp
    obtain ⟨kc, -, -, hval⟩ := foldl_update_written (mapping.zip sensors)
      (fun ks => appendWindow (prev ks.1) (ks.2.toArr.map (mkLegacyPoint now offset)) now)
      prev k hk
    rw [hval] at hp
    exact ((hcore _ _ _ _).mp hp).2

/-- Witness for C5: a concrete binary-path append stores a point within the
window bound. -/
theorem c5_window_invariant_witness :
    (10 : ℚ) - ({ time := 5, value := 2 } : Point).time ≤ WINDOW_MS := by
  refine c5_window_invariant.2.2.1 (fun _ => []) ["A1"] [[{ timestamp := 5, value := 2 }]]
    10 "A1" (by simp) { time := 5, value := 2 } ?_
  simp [updatePiezoBinary, appendWindow, Function.update, WINDOW_MS]
  norm_num

/-- C7: in legacy mode, per reading object: a missing or non-numeric `v`
yields value 0 (never a thrown error — `mkLegacyPoint` is total); a reading
without a numeric `ts` is stamped with the local receive time; a reading with
a numeric `ts` is stamped `ts - currentOffsetEstimate`. -/
theorem c7_legacy_defaults :
    (∀ (now offset : ℚ) (obj : ReadingObj), obj.v = none →
      (mkLegacyPoint now offset obj).value = 0) ∧
    (∀ (now offset : ℚ) (obj : ReadingObj), obj.ts = none →
      (mkLegacyPoint now offset obj).time = now) ∧
    (∀ (now offset : ℚ) (obj : ReadingObj) (t : ℚ), obj.ts = some t →
      (mkLegacyPoint now offset obj).time = t - offset) := by
  refine ⟨?_, ?_, ?_⟩
  · intro now offset obj hv
    simp [mkLegacyPoint, hv, numOr0]
  · intro now offset obj hts
    simp [mkLegacyPoint, hts]
  · intro now offset obj t hts
    simp [mkLegacyPoint, hts]

/-- Witness for C7 at concrete readings. -/
theorem c7_legacy_defaults_witness :
    (mkLegacyPoint 100 7 { ts := some 3, v := none }).value = 0 ∧
    (mkLegacyPoint 100 7 { ts := none, v := some 2 }).time = 100 ∧
    (mkLegacyPoint 100 7 { ts := some 3, v := some 2 }).time = 3 - 7 :=
  ⟨c7_legacy_defaults.1 100 7 _ rfl, c7_legacy_defaults.2.1 100 7 _ rfl,
   c7_legacy_defaults.2.2 100 7 _ 3 rfl⟩

lemma observeOffset_samples_def (st : OffsetState) (x : ℚ) :
    (observeOffset st x).samples =
      if OFFSET_SAMPLE_SIZE < (st.samples ++ [x]).length then (st.samples ++ [x]).tail
      else st.samples ++ [x] := rfl

lemma observeOffset_offset_def (st : OffsetState) (x : ℚ) :
    (observeOffset st x).offset =
      ((observeOffset st x).samples.foldl (· + ·) 0) /
        (observeOffset st x).samples.length := rfl

lemma observeOffset_samples_fifo (st : OffsetState) (x : ℚ)
    (h : st.samples.length ≤ OFFSET_SAMPLE_SIZE) :
    (observeOffset st x).samples =
      if st.samples.length < OFFSET_SAMPLE_SIZE then st.samples ++ [x]
      else st.samples.tail ++ [x] := by
  rw [observeOffset_samples_def]
  by_cases hlt : st.samples.length < OFFSET_SAMPLE_SIZE
  · rw [if_neg (by simp; omega), if_pos hlt]
  · have h20 : st.samples.length = OFFSET_SAMPLE_SIZE := by omega
    have hne : st.samples ≠ [] := by
      intro hnil
      rw [hnil] at h20
      simp [OFFSET_SAMPLE_SIZE] at h20
    rw [if_pos (by simp; omega), if_neg hlt,
        List.tail_append_singleton_of_ne_nil hne]

/-- C6: the clock-offset estimator keeps a FIFO of at most
`OFFSET_SAMPLE_SIZE = 20` samples (oldest evicted when a 21st arrives) and its
cached estimate is the arithmetic mean of the retained samples (0 before any
observation); after [100, 200, 300] the estimate is 200, and after 25
observations only the last 20 remain, giving their mean. -/
theorem c6_offset_estimator :
    OFFSET_SAMPLE_SIZE = 20 ∧
    (initOffsetState.samples = [] ∧ initOffsetState.offset = 0) ∧
    (∀ (st : OffsetState) (x : ℚ), st.samples.length ≤ OFFSET_SAMPLE_SIZE →
      (observeOffset st x).samples =
        (if st.samples.length < OFFSET_SAMPLE_SIZE then st.samples ++ [x]
         else st.samples.tail ++ [x]) ∧
      (observeOffset st x).samples.length ≤ OFFSET_SAMPLE_SIZE ∧
      (observeOffset st x).offset =
        (observeOffset st x).samples.sum / (observeOffset st x).samples.length) ∧
    (observeList initOffsetState [100, 200, 300]).offset = 200 ∧
    (observeList initOffsetState
        [1, 2, 3, 4, 5, 6, 7, 8, 9, 10, 11, 12, 13, 14, 15, 16, 17, 18, 19, 20,
         21, 22, 23, 24, 25]).samples =
      [6, 7, 8, 9, 10, 11, 12, 13, 14, 15, 16, 17, 18, 19, 20,
       21, 22, 23, 24, 25] ∧
    (observeList initOffsetState
        [1, 2, 3, 4, 5, 6, 7, 8, 9, 10, 11, 12, 13, 14, 15, 16, 17, 18, 19, 20,
         21, 22, 23, 24, 25]).offset = 31 / 2 := by
  refine ⟨rfl, ⟨rfl, rfl⟩, ?_, ?_, ?_, ?_⟩
  · intro st x h
    have hs := observeOffset_samples_fifo st x h
    refine ⟨hs, ?_, ?_⟩
    · rw [hs]
      simp only [OFFSET_SAMPLE_SIZE] at h ⊢
      split_ifs with hlt
      · simp only [List.length_append, List.length_singleton]
        omega
      · simp only [List.length_append, List.length_singleton, List.length_tail]
        omega
    · rw [observeOffset_offset_def, List.sum_eq_foldl]
  · norm_num [observeList, observeOffset, initOffsetState, OFFSET_SAMPLE_SIZE]
  · norm_num [observeList, observeOffset, initOffsetState, OFFSET_SAMPLE_SIZE]
  · norm_num [observeList, observeOffset, initOffsetState, OFFSET_SAMPLE_SIZE]

/-- Witness for C6: one concrete observation appended below the bound. -/
theorem c6_offset_estimator_witness :
    (observeOffset { samples := [1, 2], offset := 5 } 4).samples = [1, 2, 4] := by
  have h := (c6_offset_estimator.2.2.1 { samples := [1, 2], offset := 5 } 4
    (by norm_num [OFFSET_SAMPLE_SIZE])).1
  simpa [OFFSET_SAMPLE_SIZE] using h

lemma piezoSampleLoop_some_spec (buf : Bytes) (b i : Nat) (r : Nat) :
    ∀ (s off : Nat) (res : List PiezoSample × Nat × Nat),
      piezoSampleLoop buf b i s r off = some res →
      res.2.2 = off + 2 * r ∧ (off + 2 * r ≤ buf.length ∨ r = 0) := by
  induction r with
  | zero =>
    intro s off res h
    rw [piezoSampleLoop] at h
    cases h
    exact ⟨rfl, Or.inr rfl⟩
  | succ r ih =>
    intro s off res h
    rw [piezoSampleLoop] at h
    simp only [Option.bind_eq_bind, Option.bind_eq_some] at h
    obtain ⟨raw, h1, ⟨tl, inv, off'⟩, h2, h⟩ := h
    obtain ⟨hoff, hlen⟩ := ih (s + 1) (off + 2) (tl, inv, off') h2
    simp only at hoff
    have hread : off + 2 ≤ buf.length := by
      by_contra hc
      rw [getInt16LE, getUint16LE, if_neg hc] at h1
      simp at h1
    have hfin : off' = off + 2 * (r + 1) := by omega
    have hlen' : off + 2 * (r + 1) ≤ buf.length ∨ r + 1 = 0 := by
      rcases hlen with hle | hr0
      · left; omega
      · left; omega
    by_cases hs : raw = -32768
    · rw [if_pos hs] at h
      cases h
      exact ⟨hfin, hlen'⟩
    · rw [if_neg hs] at h
      cases h
      exact ⟨hfin, hlen'⟩

lemma piezoChannelLoop_some_spec (buf : Bytes) (b i ns : Nat) (c : Nat) :
    ∀ (off : Nat) (res : List (List PiezoSample) × Nat × Nat),
      piezoChannelLoop buf b i ns c off = some res →
      res.2.2 = off + 2 * (ns * c) ∧ (off + 2 * (ns * c) ≤ buf.length ∨ ns * c = 0) := by
  induction c with
  | zero =>
    intro off res h
    rw [piezoChannelLoop] at h
    cases h
    exact ⟨by simp, Or.inr (by simp)⟩
  | succ c ih =>
    intro off res h
    rw [piezoChannelLoop] at h
    simp only [Option.bind_eq_bind, Option.bind_eq_some] at h
    obtain ⟨⟨l1, inv1, off1⟩, h1, ⟨l2, inv2, off2⟩, h2, h⟩ := h
    obtain ⟨hoff1, hlen1⟩ := piezoSampleLoop_some_spec buf b i ns 0 off (l1, inv1, off1) h1
    simp only at hoff1
    obtain ⟨hoff2, hlen2⟩ := ih off1 (l2, inv2, off2) h2
    simp only at hoff2
    cases h
    have hmul : ns * (c + 1) = ns * c + ns := Nat.mul_succ ns c
    constructor
    · simp only
      omega
    · rcases hlen2 with hle | hz
      · left; omega
      · rcases hlen1 with hle1 | hz1
        · left; omega
        · right; omega

lemma decodePiezoBytes_some_le (buf : Bytes) (d : PiezoDecoded)
    (h : decodePiezoBytes buf = some d) :
    8 + 2 * (byteAt buf 6 * byteAt buf 7) ≤ buf.length := by
  rw [decodePiezoBytes] at h
  simp only [Option.bind_eq_bind, Option.bind_eq_some] at h
  obtain ⟨b, h0, i, h1, ns, h2, nc, h3, res, h4, -⟩ := h
  have hlen8 : 7 + 1 ≤ buf.length := by
    by_contra hc
    rw [getUint8, if_neg hc] at h3
    simp at h3
  have hns : ns = byteAt buf 6 := by
    rw [getUint8, if_pos (by omega)] at h2
    exact (Option.some_inj.mp h2).symm
  have hnc : nc = byteAt buf 7 := by
    rw [getUint8, if_pos (by omega)] at h3
    exact (Option.some_inj.mp h3).symm
  obtain ⟨-, hbound⟩ := piezoChannelLoop_some_spec buf b i ns nc 8 res h4
  rcases hbound with hle | hz
  · rw [← hns, ← hnc]; omega
  · rw [← hns, ← hnc, hz]; omega

/-- C4: a piezo buffer shorter than `8 + 2*num_samples*num_channels` bytes
(including one shorter than the 8-byte header, where the missing header bytes
read as 0) decodes to `null`; a temp/hum buffer shorter than 8 bytes decodes
to `null`.  No samples are emitted in either case. -/
theorem c4_truncated_fail (buf : Bytes) :
    (buf.length < 8 + 2 * (byteAt buf 6 * byteAt buf 7) → decodePiezoBytes buf = none) ∧
    (buf.length < 8 → decodeTempHumBytes buf = none) := by
  constructor
  · intro hlt
    cases hd : decodePiezoBytes buf with
    | none => rfl
    | some d => exact absurd (decodePiezoBytes_some_le buf d hd) (by omega)
  · exact decodeTempHumBytes_short buf

/-- Witness for C4: an 8-byte piezo buffer declaring 1×1 samples (10 bytes
needed) fails, and a 3-byte temp/hum buffer fails. -/
theorem c4_truncated_fail_witness :
    decodePiezoBytes [0, 0, 0, 0, 0, 0, 1, 1] = none ∧
    decodeTempHumBytes [1, 2, 3] = none :=
  ⟨(c4_truncated_fail [0, 0, 0, 0, 0, 0, 1, 1]).1 (by norm_num [byteAt]),
   (c4_truncated_fail [1, 2, 3]).2 (by norm_num)⟩

lemma updatePiezoBinary_getD (prev : String → List Point) (mapping : List String)
    (chans : List (List PiezoSample)) (now : ℚ) (i : Nat)
    (hnd : mapping.Nodup) (hi : i < min mapping.length chans.length) :
    updatePiezoBinary prev mapping chans now (mapping.getD i "") =
      appendWindow (prev (mapping.getD i ""))
        ((chans.getD i []).map fun p => { time := (p.timestamp : ℚ), value := p.value })
        now := by
  have hlen : i < (mapping.zip chans).length := by
    rw [List.length_zip]
    exact hi
  have him : i < mapping.length := lt_of_lt_of_le hi (min_le_left _ _)
  have hic : i < chans.length := lt_of_lt_of_le hi (min_le_right _ _)
  have hkey : ((mapping.zip chans).get ⟨i, hlen⟩).1 = mapping.getD i "" := by
    rw [List.getD_eq_getElem _ _ him]
    simp [List.get_eq_getElem, List.getElem_zip]
  have hval : ((mapping.zip chans).get ⟨i, hlen⟩).2 = chans.getD i [] := by
    rw [List.getD_eq_getElem _ _ hic]
    simp [List.get_eq_getElem, List.getElem_zip]
  have hg := foldl_update_get (mapping.zip chans)
      (fun kc => appendWindow (prev kc.1)
        (kc.2.map fun p => { time := (p.timestamp : ℚ), value := p.value }) now)
      prev
      (by rw [map_fst_zip_eq_take]
          exact List.Nodup.sublist (List.take_sublist _ _) hnd)
      i hlen
  simp only [updatePiezoBinary]
  simp only at hg
  rw [hkey, hval] at hg
  exact hg

/-- C8: on the piezo topic's static mapping `['A1', 'B1', 'C1', 'A2']`,
exactly the first `min(mapping length, decoded channel count)` decoded
channels are stored, the i-th decoded channel under the i-th ChannelKey;
every key outside that stored portion (in particular every key fed by a
decoded channel index beyond the table) keeps its previous window, with no
error. -/
theorem c8_channel_routing :
    TOPIC_MAP "iot/piezo" = some ["A1", "B1", "C1", "A2"] ∧
    (∀ (prev : String → List Point) (chans : List (List PiezoSample)) (now : ℚ)
        (i : Nat), i < min 4 chans.length →
      updatePiezoBinary prev ["A1", "B1", "C1", "A2"] chans now
          ((["A1", "B1", "C1", "A2"] : List String).getD i "") =
        appendWindow (prev ((["A1", "B1", "C1", "A2"] : List String).getD i ""))
          ((chans.getD i []).map fun p => { time := (p.timestamp : ℚ), value := p.value })
          now) ∧
    (∀ (prev : String → List Point) (chans : List (List PiezoSample)) (now : ℚ)
        (k : String), k ∉ (["A1", "B1", "C1", "A2"] : List String).take chans.length →
      updatePiezoBinary prev ["A1", "B1", "C1", "A2"] chans now k = prev k) := by
  refine ⟨rfl, ?_, ?_⟩
  · intro prev chans now i hi
    exact updatePiezoBinary_getD prev _ chans now i (by decide) (by simpa using hi)
  · intro prev chans now k hk
    simp only [updatePiezoBinary]
    refine foldl_update_not_written _ _ _ _ ?_
    rw [map_fst_zip_eq_take]
    exact hk

/-- Witness for C8: two decoded channels route to `A1`/`B1`; `D1` (and every
other unmapped key) is untouched. -/
theorem c8_channel_routing_witness :
    updatePiezoBinary (fun _ => []) ["A1", "B1", "C1", "A2"] [[], []] 0 "B1" = [] ∧
    updatePiezoBinary (fun _ => [{ time := 1, value := 1 }]) ["A1", "B1", "C1", "A2"]
      [[], []] 0 "D1" = [{ time := 1, value := 1 }] := by
  constructor
  · have h := c8_channel_routing.2.1 (fun _ => []) [[], []] 0 1 (by norm_num)
    simpa [appendWindow] using h
  · exact c8_channel_routing.2.2 (fun _ => [{ time := 1, value := 1 }]) [[], []] 0 "D1"
      (by decide)

lemma handleMessage_none_eq (mode : DecoderMode) (st : DashState) (topic : String)
    (bn now : ℚ) : handleMessage mode st topic none bn now = st := by
  rw [handleMessage]
  cases h : TOPIC_MAP topic
  · simp only
    split <;> rfl
  · rfl

lemma handleMessage_piezo_original (st : DashState) (data : Envelope) (bn now : ℚ) :
    handleMessage .original st "iot/piezo" (some data) bn now =
      legacyPiezoStep st ["A1", "B1", "C1", "A2"] data bn now := rfl

lemma handleMessage_piezo_base64 (st : DashState) (data : Envelope) (bn now : ℚ) :
    handleMessage .base64 st "iot/piezo" (some data) bn now =
      match data.base64_sensordata with
      | some b64 =>
        match decodePiezoData b64 with
        | some decoded =>
          { st with piezo :=
              updatePiezoBinary st.piezo ["A1", "B1", "C1", "A2"] decoded.channels now }
        | none => st
      | none => legacyPiezoStep st ["A1", "B1", "C1", "A2"] data bn now := by
  rcases data with ⟨b64f, s1, s2, s3, s4, tp, hm⟩
  cases b64f <;> rfl

lemma handleMessage_temp_original (st : DashState) (data : Envelope) (bn now : ℚ) :
    handleMessage .original st "iot/temp" (some data) bn now =
      { st with temp1 := numOr0 data.temperature, hum1 := numOr0 data.humidity } := rfl

lemma handleMessage_temp_base64 (st : DashState) (data : Envelope) (bn now : ℚ) :
    handleMessage .base64 st "iot/temp" (some data) bn now =
      match data.base64_sensordata with
      | some b64 =>
        match decodeTempHumData b64 with
        | some d => { st with temp1 := d.temperature, hum1 := d.humidity }
        | none => st
      | none =>
        { st with temp1 := numOr0 data.temperature, hum1 := numOr0 data.humidity } := by
  rcases data with ⟨b64f, s1, s2, s3, s4, tp, hm⟩
  cases b64f <;> rfl

/-- C9: a payload `JSON.parse` rejects, a failing piezo binary decode, and a
failing temp/hum binary decode all leave the dashboard state exactly as it
was (no window, reading or offset change), and a subsequent message is then
processed exactly as if the failing message had never arrived. -/
theorem c9_failures_isolated :
    (∀ (mode : DecoderMode) (st : DashState) (topic : String) (browserNow now : ℚ),
      handleMessage mode st topic none browserNow now = st) ∧
    (∀ (st : DashState) (data : Envelope) (b64 : B64Data) (browserNow now : ℚ),
      data.base64_sensordata = some b64 → decodePiezoData b64 = none →
      handleMessage .base64 st "iot/piezo" (some data) browserNow now = st) ∧
    (∀ (st : DashState) (data : Envelope) (b64 : B64Data) (browserNow now : ℚ),
      data.base64_sensordata = some b64 → decodeTempHumData b64 = none →
      handleMessage .base64 st "iot/temp" (some data) browserNow now = st) ∧
    (∀ (mode : DecoderMode) (st : DashState) (topic topic₂ : String)
        (payload₂ : Option Envelope) (bn now bn₂ now₂ : ℚ),
      handleMessage mode (handleMessage mode st topic none bn now) topic₂ payload₂ bn₂ now₂ =
        handleMessage mode st topic₂ payload₂ bn₂ now₂) := by
  refine ⟨handleMessage_none_eq, ?_, ?_, ?_⟩
  · intro st data b64 bn now hb hd
    rw [handleMessage_piezo_base64, hb]
    dsimp only
    rw [hd]
  · intro st data b64 bn now hb hd
    rw [handleMessage_temp_base64, hb]
    dsimp only
    rw [hd]
  · intro mode st topic topic₂ payload₂ bn now bn₂ now₂
    rw [handleMessage_none_eq]

/-- Witness for C9: an envelope whose `base64_sensordata` is not valid Base64
leaves the initial state untouched. -/
theorem c9_failures_isolated_witness :
    handleMessage .base64 initDashState "iot/piezo"
      (some { base64_sensordata := some .invalid, sensor1 := .absent, sensor2 := .absent,
              sensor3 := .absent, sensor4 := .absent, temperature := none, humidity := none })
      0 0 = initDashState :=
  c9_failures_isolated.2.1 initDashState _ .invalid 0 0 rfl rfl

lemma piezo_frame_binary (st : DashState) (chans : List (List PiezoSample)) (now : ℚ)
    (k : String) (hk : k ∉ (["A1", "B1", "C1", "A2"] : List String)) :
    updatePiezoBinary st.piezo ["A1", "B1", "C1", "A2"] chans now k = st.piezo k := by
  simp only [updatePiezoBinary]
  refine foldl_update_not_written _ _ _ _ ?_
  rw [map_fst_zip_eq_take]
  intro hmem
  exact hk ((List.take_sublist _ _).mem hmem)

lemma piezo_frame_legacy (st : DashState) (data : Envelope) (bn now : ℚ)
    (k : String) (hk : k ∉ (["A1", "B1", "C1", "A2"] : List String)) :
    (legacyPiezoStep st ["A1", "B1", "C1", "A2"] data bn now).piezo k = st.piezo k := by
  simp only [legacyPiezoStep, updatePiezoLegacy]
  refine foldl_update_not_written _ _ _ _ ?_
  rw [map_fst_zip_eq_take]
  intro hmem
  exact hk ((List.take_sublist _ _).mem hmem)

/-- C10: a message on the piezo topic never changes the temp/hum readings and
never changes a channel window outside `['A1', 'B1', 'C1', 'A2']`; a message
on the temp topic never changes any channel window (nor the offset
estimator). -/
theorem c10_frame_effect :
    (∀ (mode : DecoderMode) (st : DashState) (payload : Option Envelope) (bn now : ℚ),
      (handleMessage mode st "iot/piezo" payload bn now).temp1 = st.temp1 ∧
      (handleMessage mode st "iot/piezo" payload bn now).hum1 = st.hum1 ∧
      ∀ k, k ∉ (["A1", "B1", "C1", "A2"] : List String) →
        (handleMessage mode st "iot/piezo" payload bn now).piezo k = st.piezo k) ∧
    (∀ (mode : DecoderMode) (st : DashState) (payload : Option Envelope) (bn now : ℚ),
      (handleMessage mode st "iot/temp" payload bn now).piezo = st.piezo ∧
      (handleMessage mode st "iot/temp" payload bn now).offsetState = st.offsetState) := by
  constructor
  · intro mode st payload bn now
    rcases payload with _ | data
    · rw [handleMessage_none_eq]
      exact ⟨rfl, rfl, fun k _ => rfl⟩
    · cases mode
    
      case original =>
        rw [handleMessage_piezo_original]
        exact ⟨rfl, rfl, fun k hk => piezo_frame_legacy st data bn now k hk⟩
      case base64 =>
        rw [handleMessage_piezo_base64]
        rcases hb : data.base64_sensordata with _ | b64 <;> dsimp only
        · exact ⟨rfl, rfl, fun k hk => piezo_frame_legacy st data bn now k hk⟩
        · cases hd : decodePiezoData b64 with
          | none => exact ⟨rfl, rfl, fun k _ => rfl⟩
          | some decoded =>
            exact ⟨rfl, rfl, fun k hk => piezo_frame_binary st decoded.channels now k hk⟩
  · intro mode st payload bn now
    rcases payload with _ | data
    · rw [handleMessage_none_eq]
      exact ⟨rfl, rfl⟩
    · cases mode
      case original =>
        rw [handleMessage_temp_original]
        exact ⟨rfl, rfl⟩
      case base64 =>
        rw [handleMessage_temp_base64]
        rcases hb : data.base64_sensordata with _ | b64 <;> dsimp only
        · exact ⟨rfl, rfl⟩
        · cases hd : decodeTempHumData b64 with
          | none => exact ⟨rfl, rfl⟩
          | some d => exact ⟨rfl, rfl⟩

/-- Witness for C10: a piezo-topic message leaves the unmapped window `E1`
untouched. -/
theorem c10_frame_effect_witness :
    (handleMessage .original initDashState "iot/piezo" none 0 0).piezo "E1" =
      initDashState.piezo "E1" :=
  (c10_frame_effect.1 .original initDashState none 0 0).2.2 "E1" (by decide)

lemma piezoSampleLoop_eq_spec (buf : Bytes) (b i ns ch : Nat) (r : Nat) :
    ∀ s : Nat,
      piezoSampleLoop buf b i s r (8 + 2 * (ch * ns + s)) =
        (piezoChannelSpec buf b i ns ch s r).map
          (fun p => (p.1, p.2, 8 + 2 * (ch * ns + s + r))) := by
  induction r with
  | zero =>
    intro s
    simp only [piezoSampleLoop, piezoChannelSpec, Option.map_some']
    simp
  | succ r ih =>
    intro s
    simp only [piezoSampleLoop, piezoChannelSpec, piezoRead]
    rw [show (8 + 2 * (ch * ns + s) + 2 : Nat) = 8 + 2 * (ch * ns + (s + 1)) from by ring,
        ih (s + 1),
        show (8 + 2 * (ch * ns + (s + 1) + r) : Nat) = 8 + 2 * (ch * ns + s + (r + 1))
          from by ring]
    cases hr : getInt16LE buf (8 + 2 * (ch * ns + s)) with
    | none => rfl
    | some raw =>
      cases hs : piezoChannelSpec buf b i ns ch (s + 1) r with
      | none => rfl
      | some p =>
        obtain ⟨tl, inv⟩ := p
        by_cases hraw : raw = -32768
        · simp [hraw]
        · simp [hraw]

lemma piezoChannelLoop_eq_spec (buf : Bytes) (b i ns : Nat) (c : Nat) :
    ∀ ch : Nat,
      piezoChannelLoop buf b i ns c (8 + 2 * (ch * ns)) =
        (piezoChannelsSpec buf b i ns ch c).map
          (fun p => (p.1, p.2, 8 + 2 * ((ch + c) * ns))) := by
  induction c with
  | zero =>
    intro ch
    simp only [piezoChannelLoop, piezoChannelsSpec, Option.map_some']
    simp
  | succ c ih =>
    intro ch
    simp only [piezoChannelLoop, piezoChannelsSpec]
    rw [show (8 + 2 * (ch * ns) : Nat) = 8 + 2 * (ch * ns + 0) from by ring,
        piezoSampleLoop_eq_spec buf b i ns ch ns 0]
    cases hs1 : piezoChannelSpec buf b i ns ch 0 ns with
    | none => rfl
    | some p1 =>
      obtain ⟨l1, inv1⟩ := p1
      simp only [Option.map_some', Option.bind_eq_bind, Option.some_bind]
      rw [show (8 + 2 * (ch * ns + 0 + ns) : Nat) = 8 + 2 * ((ch + 1) * ns) from by ring,
          ih (ch + 1),
          show (8 + 2 * ((ch + 1 + c) * ns) : Nat) = 8 + 2 * ((ch + (c + 1)) * ns)
            from by ring]
      cases hs2 : piezoChannelsSpec buf b i ns (ch + 1) c with
      | none => rfl
      | some p2 =>
        obtain ⟨l2, inv2⟩ := p2
        rfl

lemma decodePiezo_eq_spec (buf : Bytes) : decodePiezoBytes buf = decodePiezoSpec buf := by
  unfold decodePiezoBytes decodePiezoSpec
  cases h0 : getUint32LE buf 0 with
  | none => rfl
  | some b =>
    cases h1 : getUint16LE buf 4 with
    | none => rfl
    | some i =>
      cases h2 : getUint8 buf 6 with
      | none => rfl
      | some ns =>
        cases h3 : getUint8 buf 7 with
        | none => rfl
        | some nc =>
          simp only [Option.bind_eq_bind, Option.some_bind]
          conv_lhs => rw [show (8 : Nat) = 8 + 2 * (0 * ns) from by ring]
          rw [piezoChannelLoop_eq_spec buf b i ns nc 0]
          cases hs : piezoChannelsSpec buf b i ns 0 nc with
          | none => rfl
          | some p =>
            obtain ⟨chs, inv⟩ := p
            rfl

/-- C2: the piezo batch decoder consumes the value section in channel-major
order — it is extensionally equal to the decoder that assigns the int16 at
byte offset `8 + 2*(ch*numSamples + s)` to channel `ch` as its sample `s`
(channel-outer, sample-inner). -/
theorem c2_channel_major :
    ∀ buf : Bytes, decodePiezoBytes buf = decodePiezoSpec buf :=
  decodePiezo_eq_spec

lemma piezoChannelSpec_some_eq (buf : Bytes) (b i ns ch : Nat) (r : Nat) :
    ∀ (s : Nat) (l : List PiezoSample) (inv : Nat),
      piezoChannelSpec buf b i ns ch s r = some (l, inv) →
      l = (List.range' s r).filterMap (fun u =>
            (piezoRead buf ns ch u).bind fun raw =>
              if raw = -32768 then none
              else some { timestamp := b * 1000 + u * i, value := (raw : ℚ) / 100 }) ∧
      inv = ((List.range' s r).filter
              (fun u => decide (piezoRead buf ns ch u = some (-32768)))).length := by
  induction r with
  | zero =>
    intro s l inv h
    rw [piezoChannelSpec] at h
    cases h
    simp
  | succ r ih =>
    intro s l inv h
    rw [piezoChannelSpec] at h
    simp only [Option.bind_eq_bind, Option.bind_eq_some] at h
    obtain ⟨raw, hr, ⟨tl, tinv⟩, hrec, h⟩ := h
    obtain ⟨htl, htinv⟩ := ih (s + 1) tl tinv hrec
    rw [List.range'_succ, List.filterMap_cons, List.filter_cons]
    by_cases hraw : raw = -32768
    · rw [if_pos hraw] at h
      cases h
      constructor
      · rw [hr, hraw]
        simp only [Option.some_bind, if_pos rfl]
        exact htl
      · rw [if_pos (by simp [hr, hraw])]
        simp only [List.length_cons]
        omega
    · rw [if_neg hraw] at h
      cases h
      constructor
      · rw [hr]
        simp only [Option.some_bind, if_neg hraw]
        rw [htl]
      · rw [if_neg (by simp [hr, hraw])]
        exact htinv

lemma piezoChannelsSpec_some_eq (buf : Bytes) (b i ns : Nat) (c : Nat) :
    ∀ (ch : Nat) (chs : List (List PiezoSample)) (inv : Nat),
      piezoChannelsSpec buf b i ns ch c = some (chs, inv) →
      chs.length = c ∧
      (∀ j, j < c → chs.getD j [] = channelSamplesAt buf b i ns (ch + j)) ∧
      inv = ((List.range' ch c).map (channelInvalidAt buf ns)).sum := by
  induction c with
  | zero =>
    intro ch chs inv h
    rw [piezoChannelsSpec] at h
    cases h
    exact ⟨rfl, fun j hj => absurd hj (by omega), by simp⟩
  | succ c ih =>
    intro ch chs inv h
    rw [piezoChannelsSpec] at h
    simp only [Option.bind_eq_bind, Option.bind_eq_some] at h
    obtain ⟨⟨l1, inv1⟩, h1, ⟨l2, inv2⟩, h2, h⟩ := h
    cases h
    obtain ⟨hlen, hget, hinv⟩ := ih (ch + 1) l2 inv2 h2
    obtain ⟨hl1, hinv1⟩ := piezoChannelSpec_some_eq buf b i ns ch ns 0 l1 inv1 h1
    refine ⟨by simp [hlen], ?_, ?_⟩
    · intro j hj
      cases j with
      | zero =>
        simp only [List.getD_cons_zero]
        rw [hl1, channelSamplesAt, List.range_eq_range']
        simp
      | succ jj =>
        simp only [List.getD_cons_succ]
        have hj' := hget jj (by omega)
        rw [hj']
        rw [show ch + 1 + jj = ch + (jj + 1) from by omega]
    · rw [List.range'_succ, List.map_cons, List.sum_cons, hinv, hinv1,
          channelInvalidAt, List.range_eq_range']

lemma piezo_example_eval :
    decodePiezoBytes [1, 0, 0, 0, 100, 0, 2, 2, 0x64, 0x00, 0x00, 0x80, 0xFA, 0x00, 0xFF, 0xFF] =
      some { channels := [[{ timestamp := 1000, value := 1 }],
                          [{ timestamp := 1000, value := 2.5 },
                           { timestamp := 1100, value := -0.01 }]],
             baseTimestamp := 1, sampleIntervalMs := 100, invalidCount := 1 } := by
  have h : piezoChannelLoop
      [1, 0, 0, 0, 100, 0, 2, 2, 0x64, 0x00, 0x00, 0x80, 0xFA, 0x00, 0xFF, 0xFF] 1 100 2 2 8 =
      some ([[{ timestamp := 1000, value := 1 }],
             [{ timestamp := 1000, value := 2.5 },
              { timestamp := 1100, value := -0.01 }]], 1, 16) := by
    norm_num [piezoChannelLoop, piezoSampleLoop, getInt16LE, getUint16LE, byteAt]
  norm_num [decodePiezoBytes, getUint32LE, getUint16LE, getUint8, byteAt, h]

lemma piezoSampleLoop_isSome (buf : Bytes) (b i : Nat) (r : Nat) :
    ∀ (s off : Nat), off + 2 * r ≤ buf.length →
      ∃ l inv, piezoSampleLoop buf b i s r off = some (l, inv, off + 2 * r) := by
  induction r with
  | zero =>
    intro s off h
    refine ⟨[], 0, ?_⟩
    rw [piezoSampleLoop]
    norm_num
  | succ r ih =>
    intro s off h
    obtain ⟨l, inv, hrec⟩ := ih (s + 1) (off + 2) (by omega)
    have hread : (getInt16LE buf off).isSome := by
      rw [getInt16LE, getUint16LE, if_pos (by omega)]
      rfl
    obtain ⟨raw, hraw⟩ := Option.isSome_iff_exists.mp hread
    rw [piezoSampleLoop]
    simp only [Option.bind_eq_bind, hraw, Option.some_bind, hrec]
    rw [show off + 2 + 2 * r = off + 2 * (r + 1) from by omega]
    by_cases hs : raw = -32768
    · refine ⟨l, inv + 1, ?_⟩
      rw [if_pos hs]
    · refine ⟨{ timestamp := b * 1000 + s * i, value := (raw : ℚ) / 100 } :: l, inv, ?_⟩
      rw [if_neg hs]

lemma piezoChannelLoop_isSome (buf : Bytes) (b i ns : Nat) (c : Nat) :
    ∀ off : Nat, off + 2 * (ns * c) ≤ buf.length →
      ∃ chs inv, piezoChannelLoop buf b i ns c off = some (chs, inv, off + 2 * (ns * c)) := by
  induction c with
  | zero =>
    intro off h
    refine ⟨[], 0, ?_⟩
    rw [piezoChannelLoop]
    norm_num
  | succ c ih =>
    intro off h
    rw [Nat.mul_succ] at h
    obtain ⟨l1, inv1, h1⟩ := piezoSampleLoop_isSome buf b i ns 0 off (by omega)
    obtain ⟨chs, inv2, h2⟩ := ih (off + 2 * ns) (by omega)
    refine ⟨l1 :: chs, inv1 + inv2, ?_⟩
    rw [piezoChannelLoop]
    simp only [Option.bind_eq_bind, h1, Option.some_bind, h2]
    rw [show off + 2 * ns + 2 * (ns * c) = off + 2 * (ns * (c + 1)) from by ring]

lemma decodePiezoBytes_isSome (buf : Bytes)
    (h : 8 + 2 * (byteAt buf 6 * byteAt buf 7) ≤ buf.length) :
    (decodePiezoBytes buf).isSome := by
  have c1 : 0 + 4 ≤ buf.length := by omega
  have c2 : 4 + 2 ≤ buf.length := by omega
  have c3 : 6 + 1 ≤ buf.length := by omega
  have c4 : 7 + 1 ≤ buf.length := by omega
  obtain ⟨chs, inv, hcl⟩ := piezoChannelLoop_isSome buf
    (byteAt buf 0 + 256 * byteAt buf 1 + 65536 * byteAt buf 2 + 16777216 * byteAt buf 3)
    (byteAt buf 4 + 256 * byteAt buf 5) (byteAt buf 6) (byteAt buf 7) 8 (by omega)
  simp [decodePiezoBytes, getUint32LE, getUint16LE, getUint8, c1, c2, c3, c4, hcl]

/-- C3: when a piezo buffer decodes successfully, every channel of the result
holds exactly one sample per non-sentinel position, with `value = raw/100`
and `timestamp = base_timestamp*1000 + sample_index*sample_interval_ms`;
every sentinel (−32768) position is absent from every channel; and the
invalid-sample counter equals the total number of sentinel positions. -/
theorem c3_sentinel_filter (buf : Bytes) (d : PiezoDecoded) :
    (buf.length = 8 + 2 * (byteAt buf 6 * byteAt buf 7) →
      (decodePiezoBytes buf).isSome) ∧
    (decodePiezoBytes buf = some d →
      d.channels.length = byteAt buf 7 ∧
      (∀ ch, ch < byteAt buf 7 →
        d.channels.getD ch [] =
          channelSamplesAt buf d.baseTimestamp d.sampleIntervalMs (byteAt buf 6) ch) ∧
      d.invalidCount =
        ((List.range (byteAt buf 7)).map (channelInvalidAt buf (byteAt buf 6))).sum) := by
  refine ⟨fun hl => decodePiezoBytes_isSome buf (le_of_eq hl.symm), fun h => ?_⟩
  rw [decodePiezo_eq_spec, decodePiezoSpec] at h
  simp only [Option.bind_eq_bind, Option.bind_eq_some] at h
  obtain ⟨b, h0, i, h1, ns, h2, nc, h3, ⟨chs, inv⟩, h4, h5⟩ := h
  have hlen8 : 7 + 1 ≤ buf.length := by
    by_contra hc
    rw [getUint8, if_neg hc] at h3
    simp at h3
  have hns : ns = byteAt buf 6 := by
    rw [getUint8, if_pos (by omega)] at h2
    exact (Option.some_inj.mp h2).symm
  have hnc : nc = byteAt buf 7 := by
    rw [getUint8, if_pos (by omega)] at h3
    exact (Option.some_inj.mp h3).symm
  cases h5
  obtain ⟨hlen, hget, hinv⟩ := piezoChannelsSpec_some_eq buf b i ns nc 0 chs inv h4
  subst hns
  subst hnc
  refine ⟨hlen, ?_, ?_⟩
  · intro ch hch
    have hch' := hget ch (by omega)
    simpa using hch'
  · rw [List.range_eq_range']
    simpa using hinv

/-- Witness for C3 at the concrete example batch (2 channels × 2 samples with
one sentinel): the buffer of declared length decodes, and the invalid counter
equals the number of sentinel positions. -/
theorem c3_sentinel_filter_witness :
    (decodePiezoBytes
      [1, 0, 0, 0, 100, 0, 2, 2, 0x64, 0x00, 0x00, 0x80, 0xFA, 0x00, 0xFF, 0xFF]).isSome ∧
    ({ channels := [[{ timestamp := 1000, value := 1 }],
                    [{ timestamp := 1000, value := 2.5 },
                     { timestamp := 1100, value := -0.01 }]],
       baseTimestamp := 1, sampleIntervalMs := 100,
       invalidCount := 1 } : PiezoDecoded).invalidCount =
      ((List.range (byteAt
          [1, 0, 0, 0, 100, 0, 2, 2, 0x64, 0x00, 0x00, 0x80, 0xFA, 0x00, 0xFF, 0xFF] 7)).map
        (channelInvalidAt
          [1, 0, 0, 0, 100, 0, 2, 2, 0x64, 0x00, 0x00, 0x80, 0xFA, 0x00, 0xFF, 0xFF]
          (byteAt
            [1, 0, 0, 0, 100, 0, 2, 2, 0x64, 0x00, 0x00, 0x80, 0xFA, 0x00, 0xFF, 0xFF] 6))).sum :=
  ⟨(c3_sentinel_filter _
      { channels := [], baseTimestamp := 0, sampleIntervalMs := 0, invalidCount := 0 }).1
    (by decide),
   ((c3_sentinel_filter _ _).2 piezo_example_eval).2.2⟩

end Dashboard
